import Mathlib

/-!
# Verification of the crystalgraphile execution-engine specification

This file gives a shallow embedding, in Lean 4, of the parts of the
repository that the specification talks about:

* `PgPolymorphicPlan` (polymorphic type discrimination for batched rows),
  from `src/unnamed/part_000`;
* the `Middlewares` runner (`runSync` / `executeMiddleware`),
  from `src/unnamed/part_001`;
* the `Behavior` capability-matching engine,
  from `src/graphile-build/graphile-build/src/behavior.ts`;
* the mermaid plan-diagram renderer (`printPlanGraph`),
  from `src/grafast/grafast/scripts/build-npm.mjs`;
* a step-graph model with deduplication and topological execution,
  modelled from the specification (the builder/executor sources are not
  part of the included source files).

JavaScript features are translated explicitly: exceptions become
`Except`, truthiness checks become explicit boolean functions, and
object-key maps become association lists in insertion order.
-/

/-- Decidable equality for `Except`, so concrete runs of the embedded
fallible operations can be checked by `decide`. -/
instance {ε α : Type} [DecidableEq ε] [DecidableEq α] : DecidableEq (Except ε α) :=
  fun x y =>
    match x, y with
    | .ok a, .ok b =>
      if h : a = b then isTrue (by rw [h])
      else isFalse (by intro hc; injection hc; contradiction)
    | .error a, .error b =>
      if h : a = b then isTrue (by rw [h])
      else isFalse (by intro hc; injection hc; contradiction)
    | .ok _, .error _ => isFalse (by intro hc; injection hc)
    | .error _, .ok _ => isFalse (by intro hc; injection hc)

namespace PgPolymorphic

/-- Result of `polymorphicWrap(typeName)` (from graphile-crystal): a value
tagged with the concrete GraphQL object type name. -/
inductive PolymorphicData where
  | wrap (typeName : String)
deriving DecidableEq, Repr

/-- The errors `PgPolymorphicPlan` can throw during `execute`. -/
inductive PgError where
  /-- "Could not determine the type to use for this polymorphic value." -/
  | noTypeMatch
  /-- A JavaScript `TypeError` from calling `.map` on a missing
  dependency-values entry. -/
  | typeError
deriving DecidableEq, Repr

/-- A `PgPolymorphicTypeMap` from the source: a JavaScript object mapping
type names to `{ match(specifier) {...}, plan(...) {...} }`.  We keep the
keys in declaration order (JavaScript string-keyed object-key order) and
only the `match` predicates (the `plan` members are not used by
`execute`).  `σ` is `TTypeSpecifier`. -/
def PgPolymorphicTypeMap (σ : Type) : Type := List (String × (σ → Bool))

/-- `this.types = Object.keys(possibleTypes)` (constructor). -/
def typesOf {σ : Type} (possibleTypes : PgPolymorphicTypeMap σ) : List String :=
  possibleTypes.map Prod.fst

/-- `this.possibleTypes[t]` — property lookup on the object. -/
def lookupType {σ : Type} (possibleTypes : PgPolymorphicTypeMap σ) (t : String) :
    Option (σ → Bool) :=
  (possibleTypes.find? (fun p => p.1 == t)).map Prod.snd

/-- `this.possibleTypes[t].match(specifier)` as a total boolean
(JavaScript would throw on a missing key; the keys we probe always come
from `typesOf`, where the lookup succeeds). -/
def matchesType {σ : Type} (possibleTypes : PgPolymorphicTypeMap σ) (t : String)
    (specifier : σ) : Bool :=
  match lookupType possibleTypes t with
  | some m => m specifier
  | none => false

/-- `PgPolymorphicPlan.getTypeNameFromSpecifier`:
`this.types.find((t) => this.possibleTypes[t].match(specifier))`, throwing
`Error("Could not determine the type to use for this polymorphic value.")`
when no type matches. -/
def getTypeNameFromSpecifier {σ : Type} (possibleTypes : PgPolymorphicTypeMap σ)
    (specifier : σ) : Except PgError String :=
  match (typesOf possibleTypes).find?
      (fun t => matchesType possibleTypes t specifier) with
  | some t => .ok t
  | none => .error .noTypeMatch

/-- The body of `PgPolymorphicPlan.execute`'s `.map` callback, folded over
the list of per-row specifiers.  `truthy` is JavaScript truthiness of the
specifier (`if (specifier)`).  A thrown error inside the callback aborts
the whole `.map`, which is what `Except` sequencing captures: the first
row whose (truthy) specifier matches no type makes the entire call throw. -/
def executeRows {σ : Type} (truthy : σ → Bool)
    (possibleTypes : PgPolymorphicTypeMap σ) :
    List σ → Except PgError (List (Option PolymorphicData))
  | [] => .ok []
  | specifier :: rest =>
    if truthy specifier then
      match getTypeNameFromSpecifier possibleTypes specifier with
      | .ok typeName =>
        (executeRows truthy possibleTypes rest).map
          (fun rs => some (.wrap typeName) :: rs)
      | .error e => .error e
    else
      (executeRows truthy possibleTypes rest).map (fun rs => none :: rs)

/-- `this.itemPlanId`: index of the first `addDependency` in the
constructor. -/
def itemPlanId : Nat := 0

/-- `this.typeSpecifierPlanId`: index of the second `addDependency` in the
constructor. -/
def typeSpecifierPlanId : Nat := 1

/-- `PgPolymorphicPlan.execute(values)`:
`values[this.typeSpecifierPlanId].map((specifier) => ...)`.  A missing
entry at that index would make JavaScript throw a `TypeError`. -/
def execute {σ : Type} (truthy : σ → Bool)
    (possibleTypes : PgPolymorphicTypeMap σ) (values : List (List σ)) :
    Except PgError (List (Option PolymorphicData)) :=
  match values.get? typeSpecifierPlanId with
  | some specifiers => executeRows truthy possibleTypes specifiers
  | none => .error .typeError

/-- Helper: `List.find?` returns the first element satisfying the
predicate — decomposition form. -/
theorem find?_eq_some_split {α : Type} {p : α → Bool} :
    ∀ {l : List α} {a : α}, l.find? p = some a →
      ∃ pre post, l = pre ++ a :: post ∧ ∀ x ∈ pre, p x = false := by
  intro l
  induction l with
  | nil => intro a h; simp [List.find?] at h
  | cons b t ih =>
    intro a h
    by_cases hp : p b
    · rw [List.find?_cons_of_pos _ hp] at h
      obtain rfl : b = a := by injection h
      exact ⟨[], t, rfl, by simp⟩
    · rw [List.find?_cons_of_neg _ hp] at h
      obtain ⟨pre, post, rfl, hpre⟩ := ih h
      refine ⟨b :: pre, post, rfl, ?_⟩
      intro x hx
      rcases List.mem_cons.mp hx with rfl | hx
      · exact Bool.of_not_eq_true hp
      · exact hpre x hx

/-- A demonstration type map with a single type `A` matching only the
specifier `1`. -/
def demoTypes : PgPolymorphicTypeMap Nat := [("A", fun v => v == 1)]

/-- JavaScript truthiness for a number-valued specifier (`0` is falsy). -/
def natTruthy : Nat → Bool := fun v => !(v == 0)

end PgPolymorphic

namespace PgPolymorphic

/-- Length preservation of the row mapping: when `executeRows` returns a
list, it has one entry per input row. -/
theorem executeRows_length {σ : Type} (truthy : σ → Bool)
    (possibleTypes : PgPolymorphicTypeMap σ) :
    ∀ (vals : List σ) (rs : List (Option PolymorphicData)),
      executeRows truthy possibleTypes vals = .ok rs → rs.length = vals.length := by
  intro vals
  induction vals with
  | nil =>
    intro rs h
    simp only [executeRows] at h
    injection h with h
    simp [← h]
  | cons v rest ih =>
    intro rs h
    simp only [executeRows] at h
    by_cases ht : truthy v
    · rw [if_pos ht] at h
      cases hg : getTypeNameFromSpecifier possibleTypes v with
      | ok typeName =>
        rw [hg] at h
        cases hr : executeRows truthy possibleTypes rest with
        | ok rs' =>
          rw [hr] at h
          simp only [Except.map] at h
          injection h with h
          simp [← h, ih rs' hr]
        | error e => rw [hr] at h; simp [Except.map] at h
      | error e => rw [hg] at h; simp at h
    · rw [if_neg ht] at h
      cases hr : executeRows truthy possibleTypes rest with
      | ok rs' =>
        rw [hr] at h
        simp only [Except.map] at h
        injection h with h
        simp [← h, ih rs' hr]
      | error e => rw [hr] at h; simp [Except.map] at h

/-- C2: for every input batch on which `PgPolymorphicPlan.execute` returns
(rather than throws), the returned results list has exactly one entry per
row of the type-specifier dependency's values list
(`values[this.typeSpecifierPlanId]`). -/
theorem execute_row_alignment {σ : Type} (truthy : σ → Bool)
    (possibleTypes : PgPolymorphicTypeMap σ) (values : List (List σ))
    (rs : List (Option PolymorphicData))
    (h : execute truthy possibleTypes values = .ok rs) :
    ∃ specifiers, values.get? typeSpecifierPlanId = some specifiers ∧
      rs.length = specifiers.length := by
  unfold execute at h
  cases hv : values.get? typeSpecifierPlanId with
  | some specifiers =>
    rw [hv] at h
    exact ⟨specifiers, rfl, executeRows_length truthy possibleTypes specifiers rs h⟩
  | none => rw [hv] at h; simp at h

/-- Witness for `execute_row_alignment` at a concrete batch. -/
theorem execute_row_alignment_witness :
    ∃ specifiers,
      ([[0, 0], [1, 0]] : List (List Nat)).get? typeSpecifierPlanId = some specifiers ∧
      ([some (.wrap "A"), none] :
        List (Option PolymorphicData)).length = specifiers.length :=
  execute_row_alignment natTruthy demoTypes [[0, 0], [1, 0]]
    [some (.wrap "A"), none] (by decide)

/-- C3: the discriminant resolution `getTypeNameFromSpecifier` returns a
type name `T` only when `T`'s `match` predicate accepts the specifier and
`T` is the first such entry in declaration order of `possibleTypes`; when
no type's predicate accepts the specifier it throws, producing no type
name at all. -/
theorem polymorphic_first_match {σ : Type}
    (possibleTypes : PgPolymorphicTypeMap σ) (specifier : σ) :
    (∀ T, getTypeNameFromSpecifier possibleTypes specifier = .ok T →
      matchesType possibleTypes T specifier = true ∧
      ∃ pre post, typesOf possibleTypes = pre ++ T :: post ∧
        ∀ t ∈ pre, matchesType possibleTypes t specifier = false) ∧
    ((∀ t ∈ typesOf possibleTypes, matchesType possibleTypes t specifier = false) →
      getTypeNameFromSpecifier possibleTypes specifier = .error .noTypeMatch) := by
  constructor
  · intro T h
    unfold getTypeNameFromSpecifier at h
    cases hf : (typesOf possibleTypes).find?
        (fun t => matchesType possibleTypes t specifier) with
    | some t =>
      rw [hf] at h
      obtain rfl : t = T := by injection h
      have hm := List.find?_some hf
      exact ⟨by simpa using hm, find?_eq_some_split hf⟩
    | none => rw [hf] at h; simp at h
  · intro hnone
    unfold getTypeNameFromSpecifier
    have : (typesOf possibleTypes).find?
        (fun t => matchesType possibleTypes t specifier) = none := by
      rw [List.find?_eq_none]
      intro t ht
      simp [hnone t ht]
    rw [this]

/-- Witness for `polymorphic_first_match` at a concrete specifier. -/
theorem polymorphic_first_match_witness :
    matchesType demoTypes "A" 1 = true ∧
    ∃ pre post, typesOf demoTypes = pre ++ "A" :: post ∧
      ∀ t ∈ pre, matchesType demoTypes t 1 = false :=
  (polymorphic_first_match demoTypes 1).1 "A" (by decide)

/-- C8: rows whose specifier is falsy map to `null` without consulting any
`match` predicate and without throwing: (a) in any successful batch a
falsy row's entry is `none`; (b) a batch of falsy specifiers succeeds with
all-`null` results, identically for any two type maps. -/
theorem execute_falsy_rows_null {σ : Type} (truthy : σ → Bool)
    (possibleTypes possibleTypes' : PgPolymorphicTypeMap σ) (vals : List σ) :
    (∀ rs i v, executeRows truthy possibleTypes vals = .ok rs →
      vals.get? i = some v → truthy v = false → rs.get? i = some none) ∧
    ((∀ v ∈ vals, truthy v = false) →
      executeRows truthy possibleTypes vals = .ok (vals.map fun _ => none) ∧
      executeRows truthy possibleTypes vals =
        executeRows truthy possibleTypes' vals) := by
  induction vals with
  | nil =>
    refine ⟨?_, ?_⟩
    · intro rs i v h hv; simp at hv
    · intro _; simp [executeRows]
  | cons w rest ih =>
    refine ⟨?_, ?_⟩
    · intro rs i v h hv hfalsy
      simp only [executeRows] at h
      by_cases ht : truthy w
      · rw [if_pos ht] at h
        cases hg : getTypeNameFromSpecifier possibleTypes w with
        | ok typeName =>
          rw [hg] at h
          cases hr : executeRows truthy possibleTypes rest with
          | ok rs' =>
            rw [hr] at h
            simp only [Except.map] at h
            injection h with h
            subst h
            cases i with
            | zero =>
              simp only [List.get?] at hv
              injection hv with hv
              subst hv
              exact absurd ht (by simp [hfalsy])
            | succ j => exact ih.1 rs' j v hr hv hfalsy
          | error e => rw [hr] at h; simp [Except.map] at h
        | error e => rw [hg] at h; simp at h
      · rw [if_neg ht] at h
        cases hr : executeRows truthy possibleTypes rest with
        | ok rs' =>
          rw [hr] at h
          simp only [Except.map] at h
          injection h with h
          subst h
          cases i with
          | zero => simp
          | succ j => exact ih.1 rs' j v hr hv hfalsy
        | error e => rw [hr] at h; simp [Except.map] at h
    · intro hall
      have hw : truthy w = false := hall w (by simp)
      have hrest : ∀ v ∈ rest, truthy v = false := by
        intro v hv; exact hall v (by simp [hv])
      obtain ⟨h1, h2⟩ := ih.2 hrest
      constructor
      · simp only [executeRows, hw, if_neg (by simp [hw] : ¬ truthy w = true), h1]
        simp [Except.map]
      · simp only [executeRows, if_neg (by simp [hw] : ¬ truthy w = true), h2]

/-- Witness for `execute_falsy_rows_null` at a concrete batch. -/
theorem execute_falsy_rows_null_witness :
    executeRows natTruthy demoTypes [0, 0] = .ok [none, none] ∧
    executeRows natTruthy demoTypes [0, 0] = executeRows natTruthy [] [0, 0] := by
  have h := (execute_falsy_rows_null natTruthy demoTypes [] [0, 0]).2 (by decide)
  exact ⟨by rw [h.1]; decide, h.2⟩

end PgPolymorphic

namespace PgPolymorphic

/-- C1 counterexample: on the batch whose type-specifier values are
`[1, 2, 1]` (row 1's specifier `2` matches no type of `demoTypes`),
`PgPolymorphicPlan.execute` throws for the whole batch — it produces no
per-row results at all, so rows 0 and 2 do not obtain their values from
this call, contradicting per-row error isolation as claimed. -/
theorem execute_batch_abort_cex :
    execute natTruthy demoTypes [[0, 0, 0], [1, 2, 1]] =
      .error .noTypeMatch := by decide

/-- C1 amended: if any row of the type-specifier dependency's values list
has a truthy specifier accepted by no type in `possibleTypes`, then
`PgPolymorphicPlan.execute` throws
`"Could not determine the type to use for this polymorphic value."` for
the entire batch, so no row of that batch produces a value through this
call (errors are not isolated to the failing row). -/
theorem execute_unmatched_aborts_batch {σ : Type} (truthy : σ → Bool)
    (possibleTypes : PgPolymorphicTypeMap σ) (values : List (List σ))
    (specifiers : List σ)
    (hv : values.get? typeSpecifierPlanId = some specifiers)
    (h : ∃ v ∈ specifiers, truthy v = true ∧
      ∀ t ∈ typesOf possibleTypes, matchesType possibleTypes t v = false) :
    execute truthy possibleTypes values = .error .noTypeMatch := by
  unfold execute
  rw [hv]
  clear hv
  induction specifiers with
  | nil => obtain ⟨v, hv, _⟩ := h; simp at hv
  | cons w rest ih =>
    obtain ⟨v, hv, htruthy, hnomatch⟩ := h
    rcases List.mem_cons.mp hv with rfl | hvrest
    · have hfail : getTypeNameFromSpecifier possibleTypes v = .error .noTypeMatch :=
        (polymorphic_first_match possibleTypes v).2 hnomatch
      simp only [executeRows, if_pos htruthy, hfail]
    · have hrest : executeRows truthy possibleTypes rest = .error .noTypeMatch :=
        ih ⟨v, hvrest, htruthy, hnomatch⟩
      simp only [executeRows, hrest]
      by_cases ht : truthy w
      · rw [if_pos ht]
        cases hg : getTypeNameFromSpecifier possibleTypes w with
        | ok typeName => simp [Except.map]
        | error e =>
          have : e = PgError.noTypeMatch := by
            unfold getTypeNameFromSpecifier at hg
            cases hf : (typesOf possibleTypes).find?
                (fun t => matchesType possibleTypes t w) with
            | some t => rw [hf] at hg; simp at hg
            | none => rw [hf] at hg; injection hg with hg; exact hg.symm
          rw [this]
      · rw [if_neg ht]
        simp [Except.map]

/-- Witness for `execute_unmatched_aborts_batch` at a concrete batch. -/
theorem execute_unmatched_aborts_batch_witness :
    execute natTruthy demoTypes [[0, 0], [1, 2]] = .error .noTypeMatch :=
  execute_unmatched_aborts_batch natTruthy demoTypes [[0, 0], [1, 2]] [1, 2]
    (by decide) ⟨2, by decide, by decide, by decide⟩

end PgPolymorphic

namespace Middlewares

/-- A JavaScript value as the middleware runner sees it: the only property
the runner inspects is whether the value is promise-like. -/
inductive JsResult where
  | direct (n : Nat)
  | promise (n : Nat)
deriving DecidableEq, Repr

/-- `isPromiseLike` from `./utils.js` (consumed contract: detects
promise-like values). -/
def isPromiseLike : JsResult → Bool
  | .direct _ => false
  | .promise _ => true

/-- Errors thrown by the middleware runner. -/
inductive MwError where
  /-- "'<activity>' is a synchronous activity, all middlewares must be
  synchronous but the middleware at index <idx> returned a promise." -/
  | syncPromise (activityName : String) (idx : Nat)
  /-- An error thrown by user code (a middleware or the activity). -/
  | userError (n : Nat)
  /-- JavaScript `TypeError` from invoking a missing array entry. -/
  | typeError
deriving DecidableEq, Repr

/-- A registered middleware: receives `next` and the activity argument;
it may call `next`, observe its outcome (JavaScript `try`/`catch`), and
return a value or throw. -/
def Middleware (α : Type) : Type :=
  (Unit → Except MwError JsResult) → α → Except MwError JsResult

/-- `executeMiddleware` from `src/unnamed/part_001`: invokes the
middleware at `idx` with a `next` continuation that either runs the
activity (at the last index) or recurses at `idx + 1`; when
`allowAsync = false` and the middleware's result is promise-like it throws
an error naming the activity and the offending index.  The source guards
the recursion with `idx === maxIdx`; its entry points only reach
`idx ≤ maxIdx`, where that test coincides with the `maxIdx ≤ idx` used
here for termination. -/
def executeMiddleware {α : Type} (activityName : String) (allowAsync : Bool)
    (middlewares : List (Middleware α)) (activity : α → Except MwError JsResult)
    (arg : α) (idx maxIdx : Nat) : Except MwError JsResult :=
  match middlewares.get? idx with
  | none => .error .typeError
  | some middleware =>
    match middleware
        (fun _ =>
          if _h : maxIdx ≤ idx then activity arg
          else
            executeMiddleware activityName allowAsync middlewares activity arg
              (idx + 1) maxIdx)
        arg with
    | .error e => .error e
    | .ok result =>
      if !allowAsync && isPromiseLike result then
        .error (.syncPromise activityName idx)
      else .ok result
termination_by maxIdx + 1 - idx
decreasing_by omega

/-- The `next` continuation (`makeNext`'s plain-call path) passed to the
middleware at `idx`. -/
def nextFn {α : Type} (activityName : String) (allowAsync : Bool)
    (middlewares : List (Middleware α)) (activity : α → Except MwError JsResult)
    (arg : α) (idx maxIdx : Nat) : Unit → Except MwError JsResult :=
  fun _ =>
    if _h : maxIdx ≤ idx then activity arg
    else
      executeMiddleware activityName allowAsync middlewares activity arg
        (idx + 1) maxIdx

/-- One-step unfolding of `executeMiddleware` in terms of `nextFn`. -/
theorem executeMiddleware_unfold {α : Type} (activityName : String)
    (allowAsync : Bool) (middlewares : List (Middleware α))
    (activity : α → Except MwError JsResult) (arg : α) (idx maxIdx : Nat) :
    executeMiddleware activityName allowAsync middlewares activity arg idx maxIdx =
      match middlewares.get? idx with
      | none => .error .typeError
      | some middleware =>
        match middleware
            (nextFn activityName allowAsync middlewares activity arg idx maxIdx)
            arg with
        | .error e => .error e
        | .ok result =>
          if !allowAsync && isPromiseLike result then
            .error (.syncPromise activityName idx)
          else .ok result := by
  rw [executeMiddleware]
  rfl

/-- `Middlewares.runSync` from `src/unnamed/part_001`: when no middleware
is registered for the activity it calls the activity directly; otherwise
it starts `executeMiddleware` with `allowAsync = false` at index `0` with
`maxIdx = length - 1`. -/
def runSync {α : Type} (middlewares : Option (List (Middleware α)))
    (activityName : String) (arg : α)
    (activity : α → Except MwError JsResult) : Except MwError JsResult :=
  match middlewares with
  | none => activity arg
  | some ms => executeMiddleware activityName false ms activity arg 0 (ms.length - 1)

end Middlewares

namespace Middlewares

/-- C9: with `allowAsync = false` (the `runSync` entry point),
`executeMiddleware` throws an error naming the activity and the offending
middleware's index exactly when the middleware it invokes returns a
promise-like value, and it propagates the middleware's result or thrown
error unchanged otherwise; consequently `runSync` never returns a
promise-like value. -/
theorem runSync_sync_guard {α : Type} (activityName : String)
    (ms : List (Middleware α)) (activity : α → Except MwError JsResult)
    (arg : α) :
    (∀ v, runSync (some ms) activityName arg activity = .ok v →
      isPromiseLike v = false) ∧
    (∀ idx maxIdx mw, ms.get? idx = some mw →
      (∀ r, mw (nextFn activityName false ms activity arg idx maxIdx) arg = .ok r →
        executeMiddleware activityName false ms activity arg idx maxIdx =
          (if isPromiseLike r then .error (.syncPromise activityName idx)
           else .ok r)) ∧
      (∀ e, mw (nextFn activityName false ms activity arg idx maxIdx) arg = .error e →
        executeMiddleware activityName false ms activity arg idx maxIdx =
          .error e)) := by
  have step : ∀ idx maxIdx mw, ms.get? idx = some mw →
      (∀ r, mw (nextFn activityName false ms activity arg idx maxIdx) arg = .ok r →
        executeMiddleware activityName false ms activity arg idx maxIdx =
          (if isPromiseLike r then .error (.syncPromise activityName idx)
           else .ok r)) ∧
      (∀ e, mw (nextFn activityName false ms activity arg idx maxIdx) arg = .error e →
        executeMiddleware activityName false ms activity arg idx maxIdx =
          .error e) := by
    intro idx maxIdx mw hget
    constructor
    · intro r hr
      rw [executeMiddleware_unfold, hget]
      simp only [hr]
      by_cases hp : isPromiseLike r
      · simp [hp]
      · simp [hp]
    · intro e he
      rw [executeMiddleware_unfold, hget]
      simp only [he]
  refine ⟨?_, step⟩
  intro v hv
  replace hv : executeMiddleware activityName false ms activity arg 0
      (ms.length - 1) = .ok v := hv
  cases hget : ms.get? 0 with
  | none =>
    rw [executeMiddleware_unfold, hget] at hv
    simp at hv
  | some mw =>
    cases hmw : mw (nextFn activityName false ms activity arg 0
        (ms.length - 1)) arg with
    | error e =>
      rw [(step 0 (ms.length - 1) mw hget).2 e hmw] at hv
      simp at hv
    | ok r =>
      rw [(step 0 (ms.length - 1) mw hget).1 r hmw] at hv
      by_cases hp : isPromiseLike r
      · simp [hp] at hv
      · simp [hp] at hv
        rw [← hv]
        simpa using hp

/-- A middleware that returns a promise-like value without calling
`next`. -/
def demoPromiseMw : Middleware Nat := fun _ _ => .ok (.promise 7)

/-- A synchronous demonstration activity. -/
def demoActivity : Nat → Except MwError JsResult := fun n => .ok (.direct n)

/-- Witness for `runSync_sync_guard`: running the synchronous activity
with a promise-returning middleware at index 0 throws the error that names
the activity and the index. -/
theorem runSync_sync_guard_witness :
    executeMiddleware "establishValidationRules" false [demoPromiseMw]
      demoActivity 5 0 0 =
      .error (.syncPromise "establishValidationRules" 0) := by
  have h :=
    (((runSync_sync_guard "establishValidationRules" [demoPromiseMw]
        demoActivity 5).2) 0 0 demoPromiseMw rfl).1 (.promise 7) rfl
  simpa [isPromiseLike] using h

end Middlewares

namespace Behavior

/-- A parsed behavior spec: positivity flag plus scope segments
(`interface BehaviorSpec` in `behavior.ts`). -/
structure BehaviorSpec where
  positive : Bool
  scope : List String
deriving DecidableEq, Repr

/-- Worker for `splitWs`: `inSep` records whether the previous character
belonged to a whitespace run (so a run of several whitespace characters
acts as a single separator), `acc` holds the current fragment reversed. -/
def splitWsAux (inSep : Bool) (acc : List Char) : List Char → List (List Char)
  | [] => [acc.reverse]
  | c :: rest =>
    if c.isWhitespace then
      if inSep then splitWsAux true acc rest
      else acc.reverse :: splitWsAux true [] rest
    else splitWsAux false (c :: acc) rest

/-- JavaScript `str.split(/\s+/)`: splits at each maximal run of
whitespace, keeping the (possibly empty) fragments before the first run
and after the last. -/
def splitWs (l : List Char) : List (List Char) :=
  splitWsAux false [] l

/-- Worker for splitting at every occurrence of a separator character. -/
def splitOnCharAux (sep : Char) (acc : List Char) : List Char → List (List Char)
  | [] => [acc.reverse]
  | c :: rest =>
    if c = sep then acc.reverse :: splitOnCharAux sep [] rest
    else splitOnCharAux sep (c :: acc) rest

/-- JavaScript `str.split(":")` for a one-character separator. -/
def splitOnChar (sep : Char) (s : String) : List String :=
  (splitOnCharAux sep [] s.data).map String.mk

/-- `parseScope`: splits `root:connection:filter` at `:`
(JavaScript `String.prototype.split` with a string separator). -/
def parseScope (scopeString : String) : List String :=
  splitOnChar ':' scopeString

/-- `parseSpecs`: splits the behavior string on whitespace and reads an
optional leading `+`/`-` off each fragment (`+` is implicit). -/
def parseSpecs (behaviorSpecsString : String) : List BehaviorSpec :=
  (splitWs behaviorSpecsString.data).map fun fragChars =>
    match fragChars with
    | '+' :: rest => { positive := true, scope := parseScope (String.mk rest) }
    | '-' :: rest => { positive := false, scope := parseScope (String.mk rest) }
    | _ => { positive := true, scope := parseScope (String.mk fragChars) }

/-- The entry-wise loop of `scopeMatches`, over the specified scope and
the trimmed filter scope (which have equal length at the call site, so
pairwise recursion is the same loop). -/
def scopeMatchesLoop : List String → List String → Bool → Bool
  | rule :: rules, filter :: filters, positive =>
    if filter == "*" && rule != "*" && !positive then false
    else if rule == "*" || filter == "*" then scopeMatchesLoop rules filters positive
    else if rule != filter then false
    else scopeMatchesLoop rules filters positive
  | _, _, _ => true

/-- `scopeMatches(specifiedScope, filterScope, positive)` from
`behavior.ts`: a longer specified scope never matches; otherwise the
filter scope is trimmed to the specified scope's length (conceptually the
specified scope is prefixed with `*:` entries) and compared entrywise. -/
def scopeMatches (specifiedScope filterScope : List String) (positive : Bool) : Bool :=
  if specifiedScope.length > filterScope.length then false
  else
    scopeMatchesLoop specifiedScope
      (filterScope.drop (filterScope.length - specifiedScope.length)) positive

/-- The backwards loop of `Behavior.matches`: returns the positivity of
the last spec whose scope matches, or `none`. -/
def lastMatch : List BehaviorSpec → List String → Option Bool
  | [], _ => none
  | spec :: rest, filterScope =>
    match lastMatch rest filterScope with
    | some b => some b
    | none =>
      if scopeMatches spec.scope filterScope spec.positive then some spec.positive
      else none

/-- The `localBehaviorSpecsString` argument of `Behavior.matches`:
`string | string[] | null | undefined`. -/
inductive LocalBehaviorSpecs where
  | null
  | str (s : String)
  | arr (l : List String)

/-- `Array.isArray(x) ? x.join(" ") : x` — with `null`/`undefined` kept
for the later `?? ""`. -/
def localSpecString : LocalBehaviorSpecs → Option String
  | .null => none
  | .str s => some s
  | .arr l => some (" ".intercalate l)

/-- `Behavior.addDefaultBehavior`: appends with a space separator unless
the accumulator is still empty (JavaScript string truthiness). -/
def addDefaultBehavior (globalBehaviorDefaults behavior : String) : String :=
  if globalBehaviorDefaults != "" then globalBehaviorDefaults ++ " " ++ behavior
  else behavior

/-- `Behavior.matches(localBehaviorSpecsString, filter, defaultBehavior)`
with the instance state `globalBehaviorDefaults` made explicit: builds
```${defaultBehavior} ${globalBehaviorDefaults} ${specString ?? ""}` ``,
parses it, and loops backwards for the last matching spec. -/
def behaviorMatches (globalBehaviorDefaults : String)
    (localBehaviorSpecsString : LocalBehaviorSpecs) (filter : String)
    (defaultBehavior : String) : Option Bool :=
  let specString := localSpecString localBehaviorSpecsString
  let finalBehaviorSpecsString :=
    defaultBehavior ++ " " ++ globalBehaviorDefaults ++ " " ++ specString.getD ""
  let specs := parseSpecs finalBehaviorSpecsString
  let filterScope := parseScope filter
  lastMatch specs filterScope

/-- The backwards loop is last-match-wins: it returns the positivity of
the last spec (first in the reversed list) whose scope matches. -/
theorem lastMatch_eq_reverse_find (filterScope : List String) :
    ∀ specs : List BehaviorSpec,
      lastMatch specs filterScope =
        (specs.reverse.find? fun spec =>
            scopeMatches spec.scope filterScope spec.positive).map
          (fun spec => spec.positive) := by
  intro specs
  induction specs with
  | nil => simp [lastMatch]
  | cons s rest ih =>
    simp only [lastMatch, List.reverse_cons, List.find?_append, ih]
    cases hr : rest.reverse.find? fun spec =>
        scopeMatches spec.scope filterScope spec.positive with
    | some x => simp [hr]
    | none =>
      by_cases hs : scopeMatches s.scope filterScope s.positive
      · simp [hr, hs, List.find?]
      · simp [hr, hs, List.find?]

/-- C10: `Behavior.matches` resolves by last-match-wins over the
concatenation `defaultBehavior`, then the accumulated global defaults,
then the entity's local specs: the result is the positivity of the last
spec in that concatenation whose scope matches the filter scope (matching
per `scopeMatches`, which also receives the spec's positivity), and it is
`none` (JavaScript `undefined`) when no spec matches. -/
theorem matches_last_spec_wins (globalBehaviorDefaults : String)
    (localBehaviorSpecsString : LocalBehaviorSpecs) (filter : String)
    (defaultBehavior : String) :
    behaviorMatches globalBehaviorDefaults localBehaviorSpecsString filter
        defaultBehavior =
      ((parseSpecs (defaultBehavior ++ " " ++ globalBehaviorDefaults ++ " " ++
            (localSpecString localBehaviorSpecsString).getD "")).reverse.find?
          (fun spec =>
            scopeMatches spec.scope (parseScope filter) spec.positive)).map
        (fun spec => spec.positive) := by
  unfold behaviorMatches
  exact lastMatch_eq_reverse_find (parseScope filter) _

/-- Sanity anchor: the plugin-facing call pattern from
`PgConditionCustomFieldsPlugin` — a local `+proc:filterBy` overrides the
plugin default `-proc:filterBy`, and the local spec wins because it comes
last in the concatenation. -/
theorem matches_concrete_check :
    behaviorMatches "" (.str "+proc:filterBy") "proc:filterBy" "-proc:filterBy" =
        some true ∧
      behaviorMatches "" .null "proc:filterBy" "-proc:filterBy" = some false ∧
      behaviorMatches "" .null "proc:filterBy" "" = none := by decide

end Behavior

namespace PlanGraph

/-- The fields of an `ExecutableStep` that `printPlanGraph` reads.
`isItem` is `plan instanceof __ItemStep`; `isUnbatched` is
`typeof plan.unbatchedExecute === "function"`; `meta` is the result of
`plan.toStringMeta()` (`none` for `null`); `polymorphicPaths` models the
`ReadonlySet<string>` in its insertion/iteration order;
`dependentsCount` is `plan.dependents.size`. -/
structure StepData where
  id : Nat
  name : String
  isItem : Bool
  transformStepId : Option Nat
  isSyncAndSafe : Bool
  hasSideEffects : Bool
  isUnbatched : Bool
  meta : Option String
  polymorphicPaths : List String
  layerPlanId : Nat
  dependencies : List Nat
  dependentsCount : Nat
deriving DecidableEq, Repr

/-- A phase of a `LayerPlan` as read by `startSteps`: each entry carries
the step's constructor name and id (the only fields `shortStep` reads). -/
structure PhaseData where
  normalSteps : Option (List (String × Nat))
  unbatchedSyncAndSafeSteps : Option (List (String × Nat))
deriving DecidableEq, Repr

/-- The fields of a `LayerPlan` that `printPlanGraph` reads. -/
structure LayerPlanData where
  id : Nat
  reasonType : String
  typeNames : List String
  copyPlanIds : List Nat
  polymorphicPaths : List String
  rootStepId : Option Nat
  childrenIds : List Nat
  phases : List PhaseData
deriving DecidableEq, Repr

/-- The parts of an `OperationPlan` that `printPlanGraph` reads.
`stepsInDependencyOrder` models the `processSteps(_, _,
"dependencies-first", cb)` traversal (the engine enumerates every live
step, dependencies before dependents; the engine source is not under
`src/`, so the enumeration is kept abstract as a list determined by the
plan).  `layerPlans` is `stepTracker.layerPlans` (an array that may
contain holes or replaced entries, hence the `Option` and the
`layerPlan.id !== i` guard in the renderer). -/
structure OperationPlan where
  stepsInDependencyOrder : List StepData
  layerPlans : List (Option LayerPlanData)
deriving DecidableEq, Repr

/-- `operationPlan.dangerouslyGetStep(id)` / step lookup by id. -/
def OperationPlan.getStep (op : OperationPlan) (i : Nat) : Option StepData :=
  op.stepsInDependencyOrder.find? (fun s => s.id == i)

/-- `PrintPlanGraphOptions` from the source; the renderer only reads
`concise` (`printPathRelations` is commented out and `includePaths` is
never destructured). -/
structure PrintPlanGraphOptions where
  printPathRelations : Bool
  includePaths : Bool
  concise : Bool
deriving DecidableEq, Repr

/-- The `COLORS` palette. -/
def COLORS : List String :=
  ["#696969", "#00bfff", "#7f007f", "#ffa500", "#0000ff", "#7fff00",
   "#ff1493", "#808000", "#dda0dd", "#ff0000", "#ffff00", "#00ffff",
   "#4169e1", "#3cb371", "#a52a2a", "#ff00ff", "#f5deb3"]

/-- `color(i) = COLORS[i % COLORS.length]`. -/
def color (i : Nat) : String :=
  (COLORS.get? (i % COLORS.length)).getD ""

/-- `[].join(sep)` / `Array.prototype.join`. -/
def joinSep (sep : String) : List String → String
  | [] => ""
  | [x] => x
  | x :: y :: xs => x ++ sep ++ joinSep sep (y :: xs)

/-- Modelled from the spec: `stripAnsi` (helper module `./stripAnsi.js`,
not under `src/`) removes ANSI SGR escape sequences `ESC [ ... m` from a
string.  `inEsc` records that we are inside an escape sequence. -/
def stripAnsiAux (inEsc : Bool) : List Char → List Char
  | [] => []
  | c :: rest =>
    if inEsc then
      if c = 'm' then stripAnsiAux false rest else stripAnsiAux true rest
    else if c = Char.ofNat 27 then stripAnsiAux true rest
    else c :: stripAnsiAux false rest

/-- Modelled from the spec: `stripAnsi` on strings. -/
def stripAnsi (s : String) : String :=
  String.mk (stripAnsiAux false s.data)

/-- `String.prototype.trim`. -/
def jsTrim (s : String) : String :=
  String.mk
    (((s.data.dropWhile Char.isWhitespace).reverse.dropWhile
        Char.isWhitespace).reverse)

/-- A character matched by `/^[a-z0-9 ]+$/i`. -/
def isSafeChar (c : Char) : Bool :=
  c.isAlphanum || c == ' '

/-- The lookalike replacement for `[#"<>]` characters. -/
def escapeReplaceChar (c : Char) : Char :=
  if c = '#' then 'ꖛ'
  else if c = '"' then '”'
  else if c = '<' then 'ᐸ'
  else if c = '>' then 'ᐳ'
  else c

/-- `.replace(/\r?\n/g, "<br />")`. -/
def replaceNewlines : List Char → List Char
  | [] => []
  | '\r' :: '\n' :: rest => "<br />".data ++ replaceNewlines rest
  | '\n' :: rest => "<br />".data ++ replaceNewlines rest
  | c :: rest => c :: replaceNewlines rest

/-- `mermaidEscape` from the source: strings matching `/^[a-z0-9 ]+$/i`
pass through; anything else is trimmed, ANSI-stripped, has `#"<>`
replaced by lookalikes and newlines by `<br />`, and is wrapped in
double quotes. -/
def mermaidEscape (str : String) : String :=
  if !str.data.isEmpty && str.data.all isSafeChar then str
  else
    "\"" ++
      String.mk
        (replaceNewlines ((stripAnsi (jsTrim str)).data.map escapeReplaceChar)) ++
      "\""

/-- `squish(str)` with the default `start = 8`, `end = 8` (the only call
site uses the defaults). -/
def squish (str : String) : String :=
  if str.data.length > 8 + 8 + 4 then
    String.mk (str.data.take 8) ++ "..." ++
      String.mk (str.data.drop (str.data.length - 8))
  else str

/-- `pp(polymorphicPaths)`: empty for the trivial set `{""}`, else the
paths joined by newlines. -/
def pp (polymorphicPaths : List String) : String :=
  if polymorphicPaths == [""] then ""
  else joinSep "\n" polymorphicPaths

/-- `plan.constructor.name.replace(/Step$/, "")`. -/
def stripStepSuffix (name : String) : String :=
  match name.data.reverse with
  | 'p' :: 'e' :: 't' :: 'S' :: rest => String.mk rest.reverse
  | _ => name

/-- `planNode`: `` `${planName}${plan.id}` ``. -/
def planNodeOf (s : StepData) : String :=
  stripStepSuffix s.name ++ toString s.id

/-- The `` `${meta ? `\n<${meta}>` : ""}` `` segment of the node label:
`meta` is the ANSI-stripped `toStringMeta`, squished when `concise` and
non-empty (JavaScript string truthiness). -/
def metaSegment (concise : Bool) (s : StepData) : String :=
  match s.meta with
  | none => ""
  | some rawMeta =>
    let strippedMeta := stripAnsi rawMeta
    let m := if concise && !(strippedMeta == "") then squish strippedMeta
             else strippedMeta
    if m == "" then "" else "\n<" ++ m ++ ">"

/-- `plan.dependencies[0].polymorphicPaths` (the renderer only reads it
when `dependencies.length === 1`, where the step exists in the plan). -/
def depZeroPaths (op : OperationPlan) (s : StepData) : List String :=
  ((op.getStep (s.dependencies.headD 0)).map
    (fun d => d.polymorphicPaths)).getD []

/-- `polyPathsIfDifferent`: the polymorphic-path annotation is omitted
when the step has exactly one dependency with the same rendered path
set. -/
def polyPathsIfDifferent (op : OperationPlan) (s : StepData) : String :=
  if s.dependencies.length == 1 &&
      pp (depZeroPaths op s) == pp s.polymorphicPaths then ""
  else "\n" ++ pp s.polymorphicPaths

/-- `planString`:
`` `${planName}[${plan.id}${`∈${plan.layerPlan.id}`}]${meta ? ... : ""}${polyPathsIfDifferent}` ``. -/
def planStringOf (concise : Bool) (op : OperationPlan) (s : StepData) : String :=
  stripStepSuffix s.name ++ "[" ++ toString s.id ++ "∈" ++
    toString s.layerPlanId ++ "]" ++ metaSegment concise s ++
    polyPathsIfDifferent op s

/-- The opening bracket of the node: item steps get `[/`, sync-and-safe
steps get `{{` (unbatched) or `[`, others get `[[`. -/
def lBraceOf (s : StepData) : String :=
  if s.isItem then "[/"
  else if s.isSyncAndSafe then (if s.isUnbatched then "\x7b\x7b" else "[")
  else "[["

/-- The closing bracket of the node, paired with `lBraceOf`. -/
def rBraceOf (s : StepData) : String :=
  if s.isItem then "\\]"
  else if s.isSyncAndSafe then (if s.isUnbatched then "\x7d\x7d" else "]")
  else "]]"

/-- `planClass`: side-effecting steps, item steps, unbatched-not-safe
steps and plain steps get distinct classes. -/
def planClassOf (s : StepData) : String :=
  if s.hasSideEffects then "sideeffectplan"
  else if s.isItem then "itemplan"
  else if s.isUnbatched && !s.isSyncAndSafe then "unbatchedplan"
  else "plan"

/-- The full node-definition line pushed by `planId` on first sight of a
step. -/
def nodeLine (concise : Bool) (op : OperationPlan) (s : StepData) : String :=
  "    " ++ planNodeOf s ++ lBraceOf s ++
    mermaidEscape (planStringOf concise op s) ++ rBraceOf s ++ ":::" ++
    planClassOf s

end PlanGraph

namespace PlanGraph

/-- The inputs of a `printPlanGraph` invocation that live outside the
function: the operation plan and the `steps` array (`ExecutableStep[]`,
indexed by step id, possibly sparse). -/
structure World where
  operationPlan : OperationPlan
  steps : List (Option StepData)
deriving DecidableEq, Repr

/-- The renderer's mutable locals (`graph`, `planIdMap`, `chainByDep`)
threaded explicitly, together with the world they could in principle
write to. -/
structure RenderState where
  world : World
  graph : List String
  planIdMap : List (Nat × String)
  chainByDep : List (String × String)
deriving DecidableEq, Repr

/-- `graph.push(line)`. -/
def pushLine (st : RenderState) (line : String) : RenderState :=
  { st with graph := st.graph ++ [line] }

/-- Several consecutive `graph.push` calls. -/
def pushLines (st : RenderState) (lines : List String) : RenderState :=
  { st with graph := st.graph ++ lines }

/-- `planIdMap[id]` lookup. -/
def lookupPlanId (m : List (Nat × String)) (k : Nat) : Option String :=
  (m.find? (fun p => p.1 == k)).map (fun p => p.2)

/-- `chainByDep[depNode]` lookup. -/
def lookupChain (m : List (String × String)) (k : String) : Option String :=
  (m.find? (fun p => p.1 == k)).map (fun p => p.2)

/-- `chainByDep[depNode] = planNode` (JavaScript property assignment
overwrites an existing binding). -/
def setChain (m : List (String × String)) (k v : String) :
    List (String × String) :=
  if (m.find? (fun p => p.1 == k)).isSome then
    m.map (fun p => if p.1 == k then (k, v) else p)
  else m ++ [(k, v)]

/-- `planId(plan)`: caches the node name per step id; on first sight it
also pushes the node-definition line. -/
def planIdS (concise : Bool) (st : RenderState) (s : StepData) :
    String × RenderState :=
  match lookupPlanId st.planIdMap s.id with
  | some node => (node, st)
  | none =>
    let node := planNodeOf s
    let st1 := { st with planIdMap := st.planIdMap ++ [(s.id, node)] }
    let st2 := pushLine st1 (nodeLine concise st1.world.operationPlan s)
    (node, st2)

/-- The initial `graph` array contents. -/
def headerLines (concise : Bool) : List String :=
  ["%%\x7binit: \x7b\x27themeVariables\x27: \x7b \x27fontSize\x27: \x2712px\x27\x7d\x7d\x7d%%",
   (if concise then "flowchart" else "graph") ++ " TD",
   "    classDef path fill:#eee,stroke:#000,color:#000",
   "    classDef plan fill:#fff,stroke-width:1px,color:#000",
   "    classDef itemplan fill:#fff,stroke-width:2px,color:#000",
   "    classDef unbatchedplan fill:#dff,stroke-width:1px,color:#000",
   "    classDef sideeffectplan fill:#fcc,stroke-width:2px,color:#000",
   "    classDef bucket fill:#f6f6f6,color:#000,stroke-width:2px,text-align:left",
   ""]

/-- The first `processSteps` pass (`"printingPlans"`): register every
step's node. -/
def definePass (concise : Bool) (st : RenderState) : RenderState :=
  let st1 := pushLines st ["", "    %% define steps"]
  st1.world.operationPlan.stepsInDependencyOrder.foldl
    (fun acc s => (planIdS concise acc s).2) st1

/-- `plan.dependencies.map(($dep) => planId($dep))`, looking each
dependency step up in the plan (in the source, `dependencies` holds the
step objects themselves). -/
def depNodesOf (concise : Bool) (st : RenderState) (deps : List Nat) :
    List String × RenderState :=
  deps.foldl
    (fun (acc : List String × RenderState) d =>
      match acc.2.world.operationPlan.getStep d with
      | some ds =>
        let r := planIdS concise acc.2 ds
        (acc.1 ++ [r.1], r.2)
      | none => (acc.1 ++ ["undefined"], acc.2))
    ([], st)

/-- The per-step body of the second `processSteps` pass
(`"printingPlanDeps"`): pushes the dependency edges for one step.
(`transformItemPlanNode` is constantly `null` in the source — the code
computing it is commented out — so its conditional push is omitted.) -/
def depLineStep (concise : Bool) (st : RenderState) (s : StepData) :
    RenderState :=
  let r := planIdS concise st s
  let planNode := r.1
  let r2 := depNodesOf concise r.2 s.dependencies
  let depNodes := r2.1
  let st2 := r2.2
  if depNodes.length > 0 then
    if s.isItem then
      match depNodes with
      | [] => st2
      | firstDep :: rest =>
        let arrow := if s.transformStepId == none then "==>" else "-.->"
        let st3 := pushLine st2 ("    " ++ firstDep ++ " " ++ arrow ++ " " ++ planNode)
        if rest.length > 0 then
          pushLine st3 ("    " ++ joinSep " & " rest ++ " --> " ++ planNode)
        else st3
    else
      if concise && s.dependentsCount == 0 && depNodes.length == 1 then
        let depNode := depNodes.headD ""
        match lookupChain st2.chainByDep depNode with
        | none =>
          let st3 := pushLine st2 ("    " ++ depNode ++ " --> " ++ planNode)
          { st3 with chainByDep := setChain st3.chainByDep depNode planNode }
        | some chained =>
          let st3 := pushLine st2 ("    " ++ chained ++ " o--o " ++ planNode)
          { st3 with chainByDep := setChain st3.chainByDep depNode planNode }
      else
        pushLine st2 ("    " ++ joinSep " & " depNodes ++ " --> " ++ planNode)
  else st2

/-- The second `processSteps` pass. -/
def depsPass (concise : Bool) (st : RenderState) : RenderState :=
  let st1 := pushLines st ["", "    %% plan dependencies"]
  st1.world.operationPlan.stepsInDependencyOrder.foldl
    (fun acc s => depLineStep concise acc s) st1

/-- Modelled from the spec: `String(step)` for an `ExecutableStep`
(`dangerouslyGetStep` result interpolated into the bucket label; the
engine's `toString` is not under `src/` — the spec's diagnostics section
says nodes are labelled by constructor name and id, as `shortStep` also
does). -/
def stepToString (s : StepData) : String :=
  stripStepSuffix s.name ++ "[" ++ toString s.id ++ "]"

/-- `shortStep({step})` inside `startSteps`. -/
def shortStep (p : String × Nat) : String :=
  stripStepSuffix p.1 ++ "[" ++ toString p.2 ++ "]"

/-- `shortSteps(steps)` inside `startSteps`. -/
def shortSteps : Option (List (String × Nat)) → String
  | none => ""
  | some steps =>
    let str := joinSep ", " (steps.map shortStep)
    if str.data.length < 40 then str
    else joinSep ", " (steps.map (fun p => toString p.2))

/-- `startSteps(layerPlan)`: phase listing for buckets with more than one
phase. -/
def startSteps (lp : LayerPlanData) : String :=
  if lp.phases.length == 1 then ""
  else
    "\n" ++
      joinSep "\n"
        (lp.phases.enum.map (fun q =>
          toString (q.1 + 1) ++ ": " ++ shortSteps q.2.normalSteps ++
            match q.2.unbatchedSyncAndSafeSteps with
            | some l => "\n>: " ++ shortSteps (some l)
            | none => ""))

/-- `` ` (${layerPlan.reason.type})` `` plus the type names for
polymorphic buckets (JavaScript array interpolation joins with `,`). -/
def raisonDEtre (lp : LayerPlanData) : String :=
  " (" ++ lp.reasonType ++ ")" ++
    (if lp.reasonType == "polymorphic" then "\n" ++ joinSep "," lp.typeNames
     else "")

/-- The `Deps: ...` fragment from `copyPlanIds` (`steps[pId].id`; in a
well-formed call every copied id is present in the `steps` array). -/
def copyDepsPart (stepsArg : List (Option StepData)) (lp : LayerPlanData) :
    String :=
  if lp.copyPlanIds.length > 0 then
    "\nDeps: " ++
      joinSep ", "
        (lp.copyPlanIds.map (fun pId =>
          match stepsArg.get? pId with
          | some (some p) => toString p.id
          | _ => "undefined")) ++ "\n"
  else ""

/-- The `ROOT ...` fragment for non-root buckets with a root step. -/
def rootPart (op : OperationPlan) (lp : LayerPlanData) : String :=
  match lp.rootStepId with
  | some rid =>
    if lp.reasonType == "root" then ""
    else "\nROOT " ++ ((op.getStep rid).map stepToString).getD "undefined"
  | none => ""

/-- The full description inside `Bucket<id>(...)` (`outputMapStuff` is
always empty in the source, leaving the trailing newline). -/
def bucketDescription (op : OperationPlan) (stepsArg : List (Option StepData))
    (lp : LayerPlanData) : String :=
  "Bucket " ++ toString lp.id ++ raisonDEtre lp ++ copyDepsPart stepsArg lp ++
    pp lp.polymorphicPaths ++ rootPart op lp ++ startSteps lp ++ "\n"

/-- `Object.entries(steps).filter(([id, plan]) => plan && plan.id ===
Number(id) && plan.layerPlan === layerPlan)`. -/
def plansOfLayer (stepsArg : List (Option StepData)) (lpId : Nat) :
    List StepData :=
  stepsArg.enum.filterMap (fun q =>
    match q.2 with
    | some p => if p.id == q.1 && p.layerPlanId == lpId then some p else none
    | none => none)

/-- One iteration of the first bucket loop: bucket node, per-bucket
`classDef`, and the `class` line listing the bucket's steps (via the
stateful `planId`). -/
def bucketEntry (concise : Bool) (st : RenderState) (i : Nat) : RenderState :=
  match (st.world.operationPlan.layerPlans.get? i).getD none with
  | none => st
  | some lp =>
    if lp.id != i then st
    else
      let st1 := pushLine st
        ("    Bucket" ++ toString lp.id ++ "(" ++
          mermaidEscape
            (bucketDescription st.world.operationPlan st.world.steps lp) ++
          "):::bucket")
      let st2 := pushLine st1
        ("    classDef bucket" ++ toString lp.id ++ " stroke:" ++ color lp.id)
      let r := (plansOfLayer st2.world.steps lp.id).foldl
        (fun (acc : List String × RenderState) p =>
          let q := planIdS concise acc.2 p
          (acc.1 ++ [q.1], q.2))
        ([], st2)
      pushLine r.2
        ("    class " ++
          joinSep "," (("Bucket" ++ toString lp.id) :: r.1) ++ " bucket" ++
          toString lp.id)

/-- One iteration of the second bucket loop: edges to child buckets. -/
def bucketChildren (st : RenderState) (i : Nat) : RenderState :=
  match (st.world.operationPlan.layerPlans.get? i).getD none with
  | none => st
  | some lp =>
    if lp.id != i then st
    else
      let childNodes := lp.childrenIds.map (fun c => "Bucket" ++ toString c)
      if childNodes.length > 0 then
        pushLine st
          ("    Bucket" ++ toString lp.id ++ " --> " ++ joinSep " & " childNodes)
      else st

/-- The buckets section: the (optional) `subgraph Buckets` wrapper, the
bucket-definition loop and the child-edge loop. -/
def bucketsPass (concise : Bool) (st : RenderState) : RenderState :=
  let st1 := pushLine st ""
  let st2 := if !concise then pushLine st1 "    subgraph Buckets" else st1
  let st3 := (List.range st2.world.operationPlan.layerPlans.length).foldl
    (fun acc i => bucketEntry concise acc i) st2
  let st4 := (List.range st3.world.operationPlan.layerPlans.length).foldl
    (fun acc i => bucketChildren acc i) st3
  if !concise then pushLine st4 "    end" else st4

/-- `printPlanGraph(operationPlan, options, { steps })`: renders the
mermaid diagram and returns the final graph string, together with the
state of the plan graph after rendering (so that non-mutation is a
provable property rather than a typing accident). -/
def printPlanGraph (opts : PrintPlanGraphOptions) (w : World) :
    String × World :=
  let st0 : RenderState :=
    { world := w, graph := headerLines opts.concise, planIdMap := [],
      chainByDep := [] }
  let st1 := definePass opts.concise st0
  let st2 := depsPass opts.concise st1
  let st3 := bucketsPass opts.concise st2
  (joinSep "\n" st3.graph, st3.world)

end PlanGraph

namespace PlanGraph

/-- A fold whose step preserves the world component preserves it
overall. -/
theorem foldl_world_preserved {β : Type} (f : RenderState → β → RenderState)
    (hf : ∀ st b, (f st b).world = st.world) :
    ∀ (l : List β) (st : RenderState), (l.foldl f st).world = st.world := by
  intro l
  induction l with
  | nil => intro st; rfl
  | cons b t ih =>
    intro st
    simp only [List.foldl_cons]
    rw [ih (f st b), hf st b]

/-- As `foldl_world_preserved`, for folds that also accumulate a value. -/
theorem foldl_pair_world_preserved {β γ : Type}
    (f : (γ × RenderState) → β → (γ × RenderState))
    (hf : ∀ acc b, ((f acc b).2).world = acc.2.world) :
    ∀ (l : List β) (acc : γ × RenderState),
      ((l.foldl f acc).2).world = acc.2.world := by
  intro l
  induction l with
  | nil => intro acc; rfl
  | cons b t ih =>
    intro acc
    simp only [List.foldl_cons]
    rw [ih (f acc b), hf acc b]

/-- `planId` never writes to the plan graph. -/
theorem planIdS_world (concise : Bool) (st : RenderState) (s : StepData) :
    (planIdS concise st s).2.world = st.world := by
  unfold planIdS
  cases hm : lookupPlanId st.planIdMap s.id with
  | some n => simp [hm]
  | none => simp [hm, pushLine]

/-- Collecting dependency nodes never writes to the plan graph. -/
theorem depNodesOf_world (concise : Bool) (st : RenderState)
    (deps : List Nat) : (depNodesOf concise st deps).2.world = st.world := by
  unfold depNodesOf
  exact foldl_pair_world_preserved _
    (by
      intro acc d
      cases hg : acc.2.world.operationPlan.getStep d with
      | some ds => simp [hg, planIdS_world]
      | none => simp [hg])
    deps ([], st)

/-- A dependency-edge line never writes to the plan graph. -/
theorem depLineStep_world (concise : Bool) (st : RenderState) (s : StepData) :
    (depLineStep concise st s).world = st.world := by
  have h1 := planIdS_world concise st s
  have h2 := depNodesOf_world concise (planIdS concise st s).2 s.dependencies
  simp only [depLineStep]
  split
  · split
    · split
      · rw [h2, h1]
      · split
        · simp only [pushLine]
          rw [h2, h1]
        · simp only [pushLine]
          rw [h2, h1]
    · split
      · split
        · simp only [pushLine]
          rw [h2, h1]
        · simp only [pushLine]
          rw [h2, h1]
      · simp only [pushLine]
        rw [h2, h1]
  · rw [h2, h1]

/-- The step-definition pass never writes to the plan graph. -/
theorem definePass_world (concise : Bool) (st : RenderState) :
    (definePass concise st).world = st.world := by
  unfold definePass
  rw [foldl_world_preserved _ (fun a b => planIdS_world concise a b)]
  rfl

/-- The dependency pass never writes to the plan graph. -/
theorem depsPass_world (concise : Bool) (st : RenderState) :
    (depsPass concise st).world = st.world := by
  unfold depsPass
  rw [foldl_world_preserved _ (fun a b => depLineStep_world concise a b)]
  rfl

/-- A bucket entry never writes to the plan graph. -/
theorem bucketEntry_world (concise : Bool) (st : RenderState) (i : Nat) :
    (bucketEntry concise st i).world = st.world := by
  simp only [bucketEntry]
  split
  · rfl
  · split
    · rfl
    · simp only [pushLine]
      rw [foldl_pair_world_preserved _
        (by intro acc p; simp [planIdS_world])]

/-- A bucket-children entry never writes to the plan graph. -/
theorem bucketChildren_world (st : RenderState) (i : Nat) :
    (bucketChildren st i).world = st.world := by
  simp only [bucketChildren]
  split
  · rfl
  · split
    · rfl
    · split
      · simp [pushLine]
      · rfl

/-- The buckets pass never writes to the plan graph. -/
theorem bucketsPass_world (concise : Bool) (st : RenderState) :
    (bucketsPass concise st).world = st.world := by
  unfold bucketsPass
  have h3 : ∀ (l : List Nat) (s : RenderState),
      (l.foldl (fun acc i => bucketChildren acc i) s).world = s.world :=
    fun l s => foldl_world_preserved _ (fun a b => bucketChildren_world a b) l s
  have h2 : ∀ (b : Bool) (l : List Nat) (s : RenderState),
      (l.foldl (fun acc i => bucketEntry b acc i) s).world = s.world :=
    fun b l s =>
      foldl_world_preserved _ (fun a i => bucketEntry_world b a i) l s
  by_cases hc : concise <;> simp [hc, pushLine, h3, h2]

/-- C4: plan-diagram rendering is a pure, deterministic function of the
finalized graph: `printPlanGraph` leaves the plan graph (operation plan
and steps array) exactly as it found it, and a second invocation on the
plan graph left behind by the first — with the same options — returns the
identical string. -/
theorem printPlanGraph_pure (opts : PrintPlanGraphOptions) (w : World) :
    (printPlanGraph opts w).2 = w ∧
    (printPlanGraph opts ((printPlanGraph opts w).2)).1 =
      (printPlanGraph opts w).1 := by
  have hw : (printPlanGraph opts w).2 = w := by
    show (bucketsPass opts.concise (depsPass opts.concise
      (definePass opts.concise
        { world := w, graph := headerLines opts.concise, planIdMap := [],
          chainByDep := [] }))).world = w
    rw [bucketsPass_world, depsPass_world, definePass_world]
  exact ⟨hw, by rw [hw]⟩

end PlanGraph

namespace PlanGraph

/-- C5 (amended): every step node line is built from the step's node name,
brackets, escaped label and class; the label always contains the
`id∈layerPlanId` annotation; the bracket shape and CSS class are the
stated functions of `isItem`/`isSyncAndSafe`/`isUnbatched`/
`hasSideEffects`; and the polymorphic-path set is part of the label
whenever the step does not have exactly one dependency whose rendered
path set coincides with its own (in that case — and for the trivial set
`{""}`, whose rendering is empty — the annotation is omitted). -/
theorem step_node_annotations (concise : Bool) (op : OperationPlan)
    (s : StepData) :
    (toString s.id ++ "∈" ++ toString s.layerPlanId).data <:+:
        (planStringOf concise op s).data ∧
    ((s.dependencies.length == 1 &&
        pp (depZeroPaths op s) == pp s.polymorphicPaths) = false →
      (pp s.polymorphicPaths).data <:+: (planStringOf concise op s).data) ∧
    nodeLine concise op s =
      "    " ++ planNodeOf s ++ lBraceOf s ++
        mermaidEscape (planStringOf concise op s) ++ rBraceOf s ++ ":::" ++
        planClassOf s ∧
    (lBraceOf s, rBraceOf s) =
      (if s.isItem then ("[/", "\\]")
       else if s.isSyncAndSafe then
         (if s.isUnbatched then ("\x7b\x7b", "\x7d\x7d") else ("[", "]"))
       else ("[[", "]]")) ∧
    planClassOf s =
      (if s.hasSideEffects then "sideeffectplan"
       else if s.isItem then "itemplan"
       else if s.isUnbatched && !s.isSyncAndSafe then "unbatchedplan"
       else "plan") := by
  refine ⟨?_, ?_, rfl, ?_, ?_⟩
  · refine ⟨(stripStepSuffix s.name ++ "[").data,
      ("]" ++ metaSegment concise s ++ polyPathsIfDifferent op s).data, ?_⟩
    simp [planStringOf, String.data_append]
  · intro hcond
    have hpoly : polyPathsIfDifferent op s = "\n" ++ pp s.polymorphicPaths := by
      unfold polyPathsIfDifferent
      rw [hcond]
      simp
    refine ⟨(stripStepSuffix s.name ++ "[" ++ toString s.id ++ "∈" ++
        toString s.layerPlanId ++ "]" ++ metaSegment concise s ++ "\n").data,
      [], ?_⟩
    simp [planStringOf, hpoly, String.data_append]
  · cases hi : s.isItem <;> cases hs : s.isSyncAndSafe <;>
      cases hu : s.isUnbatched <;> simp [lBraceOf, rBraceOf, hi, hs, hu]
  · rfl

/-- A demonstration step (a dependency with path set `{"Foo"}`). -/
def demoStep1 : StepData :=
  { id := 1, name := "FirstStep", isItem := false, transformStepId := none,
    isSyncAndSafe := true, hasSideEffects := false, isUnbatched := false,
    meta := none, polymorphicPaths := ["Foo"], layerPlanId := 0,
    dependencies := [], dependentsCount := 1 }

/-- A demonstration step depending only on `demoStep1`, with the same
polymorphic-path set `{"Foo"}`. -/
def demoStep2 : StepData :=
  { id := 2, name := "SecondStep", isItem := false, transformStepId := none,
    isSyncAndSafe := true, hasSideEffects := false, isUnbatched := false,
    meta := none, polymorphicPaths := ["Foo"], layerPlanId := 0,
    dependencies := [1], dependentsCount := 0 }

/-- The demonstration plan for the node-annotation claims. -/
def demoPlanGraph : OperationPlan :=
  { stepsInDependencyOrder := [demoStep1, demoStep2], layerPlans := [] }

/-- C5 counterexample: `demoStep2`'s polymorphic-path set renders as
`"Foo"`, but its node line is `    Second2["Second[2∈0]"]:::plan`, which
does not contain the path set anywhere — the renderer omits the
annotation because the step's single dependency has the same path set.
So not every step node is annotated with its polymorphic-path set. -/
theorem step_node_poly_paths_cex :
    pp demoStep2.polymorphicPaths = "Foo" ∧
    nodeLine false demoPlanGraph demoStep2 =
      "    Second2[\"Second[2∈0]\"]:::plan" ∧
    ¬ ((pp demoStep2.polymorphicPaths).data <:+:
        (nodeLine false demoPlanGraph demoStep2).data) := by decide

end PlanGraph

namespace PlanGraph

/-- Witness for `step_node_annotations` at a concrete step (`demoStep1`
has no dependencies, so its path-set annotation must appear). -/
theorem step_node_annotations_witness :
    (toString demoStep1.id ++ "∈" ++ toString demoStep1.layerPlanId).data <:+:
        (planStringOf false demoPlanGraph demoStep1).data ∧
    (pp demoStep1.polymorphicPaths).data <:+:
        (planStringOf false demoPlanGraph demoStep1).data := by
  have h := step_node_annotations false demoPlanGraph demoStep1
  exact ⟨h.1, h.2.1 (by decide)⟩

end PlanGraph

namespace StepGraph

/-- Modelled from the spec: a step of the step graph (§3 "Step", §4.1) —
the builder and deduplicator sources are not under `src/`.  `ctor` is the
constructor identity, `eqKey` the step-defined structural-equality key,
`deps` the ordered dependency id sequence. -/
structure GStep where
  id : Nat
  ctor : String
  eqKey : String
  layerPlanId : Nat
  hasSideEffects : Bool
  deps : List Nat
deriving DecidableEq, Repr

/-- Modelled from the spec: a well-formed step graph in creation order —
ids strictly increase along the list ("a stable integer id, unique within
a plan"), and every dependency refers to an earlier, existing step ("a
step may not depend on a step created after it"; "attempting to add a
dependency edge to a step not yet known ... is a fatal construction-time
error"). -/
def WFGraph (g : List GStep) : Prop :=
  List.Pairwise (fun a b => a.id < b.id) g ∧
  ∀ s ∈ g, ∀ d ∈ s.deps, d < s.id ∧ ∃ t ∈ g, t.id = d

instance (g : List GStep) : Decidable (WFGraph g) := by
  unfold WFGraph
  infer_instance

/-- Apply the dropped-step-to-survivor rewriting ("every dependent
rewritten to point at the survivor"); ids not rewritten map to
themselves. -/
def applyRemap (m : List (Nat × Nat)) (i : Nat) : Nat :=
  ((m.find? (fun p => p.1 == i)).map (fun p => p.2)).getD i

/-- Rewrite a step's dependencies through the remap. -/
def remapDeps (m : List (Nat × Nat)) (s : GStep) : GStep :=
  { s with deps := s.deps.map (applyRemap m) }

/-- Modelled from the spec: two steps are interchangeable only when the
(earlier, kept) candidate is not side-effecting and the two agree on
constructor identity, dependency id sequence, structural-equality key and
layer plan. -/
def sameDedupKey (t s : GStep) : Bool :=
  !t.hasSideEffects && t.ctor == s.ctor && t.deps == s.deps &&
    t.eqKey == s.eqKey && t.layerPlanId == s.layerPlanId

/-- Modelled from the spec: one step of the deduplication pass, in
creation (= dependency) order.  The step's dependencies are first
rewritten through the accumulated remap; a side-effecting step is always
kept ("side-effecting steps are never deduplicated"); otherwise the first
kept structurally-equivalent step becomes the survivor and the current
step is dropped, recording the rewrite. -/
def dedupStep (acc : List GStep × List (Nat × Nat)) (s : GStep) :
    List GStep × List (Nat × Nat) :=
  let s' := remapDeps acc.2 s
  if s'.hasSideEffects then (acc.1 ++ [s'], acc.2)
  else
    match acc.1.find? (fun t => sameDedupKey t s') with
    | some t => (acc.1, acc.2 ++ [(s.id, t.id)])
    | none => (acc.1 ++ [s'], acc.2)

/-- The full deduplication pass: surviving steps plus the remap. -/
def dedupRun (g : List GStep) : List GStep × List (Nat × Nat) :=
  g.foldl dedupStep ([], [])

/-- Modelled from the spec: the deduplicated graph. -/
def dedup (g : List GStep) : List GStep :=
  (dedupRun g).1

/-- The dropped-id-to-survivor-id map produced by deduplication. -/
def dedupRemap (g : List GStep) : List (Nat × Nat) :=
  (dedupRun g).2

/-- A graph is reduced when no later non-side-effecting step shares its
dedup key with an earlier one. -/
def Reduced (xs : List GStep) : Prop :=
  List.Pairwise (fun t s => s.hasSideEffects = false → sameDedupKey t s = false) xs

/-- The remapped step keeps its side-effect flag. -/
theorem remapDeps_hasSideEffects (m : List (Nat × Nat)) (s : GStep) :
    (remapDeps m s).hasSideEffects = s.hasSideEffects := rfl

/-- `dedupStep` written out by cases on the side-effect flag. -/
theorem dedupStep_eq (kept : List GStep) (m : List (Nat × Nat)) (s : GStep) :
    dedupStep (kept, m) s =
      if s.hasSideEffects then (kept ++ [remapDeps m s], m)
      else
        match kept.find? (fun t => sameDedupKey t (remapDeps m s)) with
        | some t => (kept, m ++ [(s.id, t.id)])
        | none => (kept ++ [remapDeps m s], m) := rfl

/-- With an empty remap, a step's dependencies are untouched. -/
theorem remapDeps_nil (s : GStep) : remapDeps [] s = s := by
  have : s.deps.map (applyRemap []) = s.deps :=
    (List.map_congr_left (fun a _ => (rfl : applyRemap [] a = a))).trans
      (List.map_id _)
  unfold remapDeps
  cases s
  simp_all

/-- The output of the deduplication pass is reduced. -/
theorem dedup_reduced_aux :
    ∀ (l kept : List GStep) (m : List (Nat × Nat)),
      Reduced kept → Reduced ((l.foldl dedupStep (kept, m)).1) := by
  intro l
  induction l with
  | nil => intro kept m h; exact h
  | cons s t ih =>
    intro kept m h
    rw [List.foldl_cons, dedupStep_eq]
    by_cases hside : s.hasSideEffects
    · rw [if_pos hside]
      apply ih
      unfold Reduced at h ⊢
      rw [List.pairwise_append]
      refine ⟨h, List.pairwise_singleton _ _, ?_⟩
      intro a _ b hb
      rw [List.mem_singleton] at hb
      subst hb
      intro hfalse
      rw [remapDeps_hasSideEffects] at hfalse
      rw [hfalse] at hside
      exact absurd hside (by simp)
    · rw [if_neg hside]
      cases hf : kept.find? (fun t => sameDedupKey t (remapDeps m s)) with
      | some w => exact ih kept _ h
      | none =>
        apply ih
        unfold Reduced at h ⊢
        rw [List.pairwise_append]
        refine ⟨h, List.pairwise_singleton _ _, ?_⟩
        intro a ha b hb
        rw [List.mem_singleton] at hb
        subst hb
        intro _
        simpa using List.find?_eq_none.mp hf a ha

/-- The deduplicated graph is reduced. -/
theorem dedup_reduced (g : List GStep) : Reduced (dedup g) :=
  dedup_reduced_aux g [] [] (by simp [Reduced])

/-- Deduplicating a reduced graph keeps every step and rewrites
nothing. -/
theorem dedup_of_reduced_aux :
    ∀ (l kept : List GStep),
      Reduced (kept ++ l) → l.foldl dedupStep (kept, []) = (kept ++ l, []) := by
  intro l
  induction l with
  | nil => intro kept _; rw [List.foldl_nil, List.append_nil]
  | cons s t ih =>
    intro kept h
    rw [List.foldl_cons, dedupStep_eq, remapDeps_nil]
    by_cases hside : s.hasSideEffects
    · rw [if_pos hside]
      have := ih (kept ++ [s]) (by simpa using h)
      rw [this]
      simp
    · rw [if_neg hside]
      have hnone : kept.find? (fun t => sameDedupKey t s) = none := by
        rw [List.find?_eq_none]
        intro a ha
        unfold Reduced at h
        rw [List.pairwise_append] at h
        have := h.2.2 a ha s (by simp)
        simp [this (by simpa using hside)]
      rw [hnone]
      have := ih (kept ++ [s]) (by simpa using h)
      rw [this]
      simp

/-- Deduplication is idempotent. -/
theorem dedup_idempotent (g : List GStep) : dedup (dedup g) = dedup g := by
  have h := dedup_of_reduced_aux (dedup g) [] (by simpa using dedup_reduced g)
  unfold dedup dedupRun at h ⊢
  rw [h]
  rfl

end StepGraph

namespace StepGraph

/-- Modelled from the spec: single-row evaluation of a step graph —
each step's value is its (uninterpreted) operation `interp`, determined
by constructor identity and equality key, applied to its dependencies'
values.  Dependencies are only followed downwards (well-formed graphs
never depend upwards); an unknown id evaluates to `undef`. -/
def eval {V : Type} (interp : String → String → List V → V) (undef : V)
    (g : List GStep) (i : Nat) : V :=
  match g.find? (fun s => s.id == i) with
  | none => undef
  | some s =>
    interp s.ctor s.eqKey
      (s.deps.map (fun d => if _h : d < i then eval interp undef g d else undef))
termination_by i

/-- Unfolding `eval` at a step found by id. -/
theorem eval_of_find {V : Type} (interp : String → String → List V → V)
    (undef : V) (g : List GStep) (i : Nat) (s : GStep)
    (h : g.find? (fun u => u.id == i) = some s) :
    eval interp undef g i =
      interp s.ctor s.eqKey
        (s.deps.map (fun d =>
          if _h : d < i then eval interp undef g d else undef)) := by
  rw [eval, h]

/-- In a list with strictly increasing ids, `find?` by id returns the
member with that id. -/
theorem find?_id_of_mem_pairwise {g : List GStep}
    (hp : List.Pairwise (fun a b => a.id < b.id) g) {t : GStep} (ht : t ∈ g) :
    g.find? (fun s => s.id == t.id) = some t := by
  induction g with
  | nil => simp at ht
  | cons a l ih =>
    rcases List.mem_cons.mp ht with rfl | hmem
    · simp [List.find?]
    · have halt : a.id < t.id := (List.pairwise_cons.mp hp).1 t hmem
      have hfalse : (a.id == t.id) = false := by
        simp
        omega
      simp only [List.find?, hfalse]
      exact ih (List.pairwise_cons.mp hp).2 hmem

/-- Remap lookups only ever rewrite downwards when every recorded
survivor id is below its dropped id. -/
theorem applyRemap_le {m : List (Nat × Nat)} {i : Nat}
    (hm : ∀ p ∈ m, p.2 < p.1) : applyRemap m i ≤ i := by
  unfold applyRemap
  cases hf : m.find? (fun p => p.1 == i) with
  | none => simp
  | some p =>
    have hp := List.find?_some hf
    have hmem := List.mem_of_find?_eq_some hf
    have h1 : p.1 = i := by simpa using hp
    have := hm p hmem
    simp only [Option.map_some', Option.getD_some]
    omega

/-- Ids that are not a remap key are untouched. -/
theorem applyRemap_of_no_key {m : List (Nat × Nat)} {i : Nat}
    (h : ∀ p ∈ m, p.1 ≠ i) : applyRemap m i = i := by
  unfold applyRemap
  have : m.find? (fun p => p.1 == i) = none := by
    rw [List.find?_eq_none]
    intro p hp
    simp [h p hp]
  rw [this]
  rfl

/-- Appending a remap entry with a different key does not change a
lookup. -/
theorem applyRemap_append_ne {m : List (Nat × Nat)} {k v x : Nat}
    (h : x ≠ k) : applyRemap (m ++ [(k, v)]) x = applyRemap m x := by
  unfold applyRemap
  rw [List.find?_append]
  cases hf : m.find? (fun p => p.1 == x) with
  | some p => rfl
  | none =>
    have : (((k, v).1 == x)) = false := by
      simp
      omega
    simp [List.find?, this]

/-- Appending a remap entry for a fresh key makes the lookup return it. -/
theorem applyRemap_append_key {m : List (Nat × Nat)} {k v : Nat}
    (h : ∀ p ∈ m, p.1 ≠ k) : applyRemap (m ++ [(k, v)]) k = v := by
  unfold applyRemap
  rw [List.find?_append]
  have hnone : m.find? (fun p => p.1 == k) = none := by
    rw [List.find?_eq_none]
    intro p hp
    simp [h p hp]
  rw [hnone]
  simp [List.find?]

end StepGraph

namespace StepGraph

/-- The invariant of the deduplication fold after processing the prefix
`pre` of the graph: the kept list has strictly increasing ids drawn from
the prefix; every remap entry rewrites a processed id downwards to a kept
id; kept steps only depend downwards; and every processed step has a
kept representative with the same constructor identity and equality key
whose dependencies are the step's dependencies rewritten through the
remap. -/
def Inv (pre kept : List GStep) (m : List (Nat × Nat)) : Prop :=
  List.Pairwise (fun a b => a.id < b.id) kept ∧
  (∀ t ∈ kept, t.id ∈ pre.map GStep.id) ∧
  (∀ p ∈ m, p.1 ∈ pre.map GStep.id ∧ p.2 < p.1 ∧ p.2 ∈ kept.map GStep.id) ∧
  (∀ t ∈ kept, ∀ d ∈ t.deps, d < t.id) ∧
  (∀ s ∈ pre, ∃ t ∈ kept, t.id = applyRemap m s.id ∧ t.ctor = s.ctor ∧
    t.eqKey = s.eqKey ∧ t.deps = s.deps.map (applyRemap m))

/-- One deduplication step preserves the invariant. -/
theorem inv_step (pre kept : List GStep) (m : List (Nat × Nat)) (s : GStep)
    (hup : ∀ t ∈ pre, t.id < s.id)
    (hdeps : ∀ d ∈ s.deps, d < s.id)
    (hpredeps : ∀ u ∈ pre, ∀ d ∈ u.deps, d < u.id)
    (hI : Inv pre kept m) :
    Inv (pre ++ [s]) (dedupStep (kept, m) s).1 (dedupStep (kept, m) s).2 := by
  obtain ⟨hkpair, hkin, hment, hkdeps, hchar⟩ := hI
  have fact1 : ∀ t ∈ kept, t.id < s.id := by
    intro t ht
    have := hkin t ht
    rw [List.mem_map] at this
    obtain ⟨u, hu, hid⟩ := this
    rw [← hid]
    exact hup u hu
  have factm : ∀ p ∈ m, p.1 ≠ s.id := by
    intro p hp
    have h1 := (hment p hp).1
    rw [List.mem_map] at h1
    obtain ⟨u, hu, hid⟩ := h1
    rw [← hid]
    exact Nat.ne_of_lt (hup u hu)
  have fact2 : applyRemap m s.id = s.id := applyRemap_of_no_key factm
  have factle : ∀ d, applyRemap m d ≤ d :=
    fun d => applyRemap_le (fun p hp => (hment p hp).2.1)
  have fact4 : ∀ d ∈ s.deps, applyRemap m d < s.id := by
    intro d hd
    exact Nat.lt_of_le_of_lt (factle d) (hdeps d hd)
  by_cases hside : s.hasSideEffects
  · have hres : dedupStep (kept, m) s = (kept ++ [remapDeps m s], m) := by
      rw [dedupStep_eq, if_pos hside]
    rw [hres]
    refine ⟨?_, ?_, ?_, ?_, ?_⟩
    · rw [List.pairwise_append]
      refine ⟨hkpair, List.pairwise_singleton _ _, ?_⟩
      intro a ha b hb
      rw [List.mem_singleton] at hb
      subst hb
      exact fact1 a ha
    · intro t ht
      rcases List.mem_append.mp ht with h | h
      · have := hkin t h
        simp only [List.map_append, List.mem_append]
        exact Or.inl this
      · rw [List.mem_singleton] at h
        subst h
        simp [remapDeps]
    · intro p hp
      obtain ⟨h1, h2, h3⟩ := hment p hp
      refine ⟨by simp [h1], h2, by simp [List.mem_append]; left; simpa using h3⟩
    · intro t ht d hd
      rcases List.mem_append.mp ht with h | h
      · exact hkdeps t h d hd
      · rw [List.mem_singleton] at h
        subst h
        simp only [remapDeps, List.mem_map] at hd
        obtain ⟨d0, hd0, rfl⟩ := hd
        exact fact4 d0 hd0
    · intro u hu
      rcases List.mem_append.mp hu with h | h
      · obtain ⟨t, ht, h1, h2, h3, h4⟩ := hchar u h
        exact ⟨t, List.mem_append_left _ ht, h1, h2, h3, h4⟩
      · rw [List.mem_singleton] at h
        subst h
        refine ⟨remapDeps m u, List.mem_append_right _ (by simp), ?_, rfl, rfl, rfl⟩
        rw [fact2]
        rfl
  · cases hf : kept.find? (fun t => sameDedupKey t (remapDeps m s)) with
    | some w =>
      have hres : dedupStep (kept, m) s = (kept, m ++ [(s.id, w.id)]) := by
        rw [dedupStep_eq, if_neg hside, hf]
      rw [hres]
      have hwmem := List.mem_of_find?_eq_some hf
      have hwkey := List.find?_some hf
      have hwprops : w.hasSideEffects = false ∧ w.ctor = s.ctor ∧
          w.deps = s.deps.map (applyRemap m) ∧ w.eqKey = s.eqKey ∧
          w.layerPlanId = s.layerPlanId := by
        unfold sameDedupKey at hwkey
        simp only [Bool.and_eq_true, Bool.not_eq_true', beq_iff_eq] at hwkey
        exact ⟨hwkey.1.1.1.1, hwkey.1.1.1.2, hwkey.1.1.2, hwkey.1.2, hwkey.2⟩
      have hmap_stable : ∀ (ds : List Nat), (∀ d ∈ ds, d < s.id) →
          ds.map (applyRemap (m ++ [(s.id, w.id)])) = ds.map (applyRemap m) := by
        intro ds hds
        apply List.map_congr_left
        intro d hd
        exact applyRemap_append_ne (Nat.ne_of_lt (hds d hd))
      refine ⟨hkpair, ?_, ?_, hkdeps, ?_⟩
      · intro t ht
        have := hkin t ht
        simp only [List.map_append, List.mem_append]
        exact Or.inl this
      · intro p hp
        rcases List.mem_append.mp hp with h | h
        · obtain ⟨h1, h2, h3⟩ := hment p h
          exact ⟨by simp [h1], h2, h3⟩
        · rw [List.mem_singleton] at h
          subst h
          refine ⟨by simp, fact1 w hwmem, ?_⟩
          rw [List.mem_map]
          exact ⟨w, hwmem, rfl⟩
      · intro u hu
        rcases List.mem_append.mp hu with h | h
        · obtain ⟨t, ht, h1, h2, h3, h4⟩ := hchar u h
          refine ⟨t, ht, ?_, h2, h3, ?_⟩
          · rw [h1]
            have : u.id < s.id := hup u h
            rw [applyRemap_append_ne (Nat.ne_of_lt this)]
          · rw [h4]
            exact (hmap_stable u.deps (fun d hd =>
              Nat.lt_trans (hpredeps u h d hd) (hup u h))).symm
        · rw [List.mem_singleton] at h
          subst h
          refine ⟨w, hwmem, ?_, hwprops.2.1, hwprops.2.2.2.1, ?_⟩
          · rw [applyRemap_append_key factm]
          · rw [hwprops.2.2.1]
            exact (hmap_stable u.deps hdeps).symm
    | none =>
      have hres : dedupStep (kept, m) s = (kept ++ [remapDeps m s], m) := by
        rw [dedupStep_eq, if_neg hside, hf]
      rw [hres]
      refine ⟨?_, ?_, ?_, ?_, ?_⟩
      · rw [List.pairwise_append]
        refine ⟨hkpair, List.pairwise_singleton _ _, ?_⟩
        intro a ha b hb
        rw [List.mem_singleton] at hb
        subst hb
        exact fact1 a ha
      · intro t ht
        rcases List.mem_append.mp ht with h | h
        · have := hkin t h
          simp only [List.map_append, List.mem_append]
          exact Or.inl this
        · rw [List.mem_singleton] at h
          subst h
          simp [remapDeps]
      · intro p hp
        obtain ⟨h1, h2, h3⟩ := hment p hp
        refine ⟨by simp [h1], h2, by simp [List.mem_append]; left; simpa using h3⟩
      · intro t ht d hd
        rcases List.mem_append.mp ht with h | h
        · exact hkdeps t h d hd
        · rw [List.mem_singleton] at h
          subst h
          simp only [remapDeps, List.mem_map] at hd
          obtain ⟨d0, hd0, rfl⟩ := hd
          exact fact4 d0 hd0
      · intro u hu
        rcases List.mem_append.mp hu with h | h
        · obtain ⟨t, ht, h1, h2, h3, h4⟩ := hchar u h
          exact ⟨t, List.mem_append_left _ ht, h1, h2, h3, h4⟩
        · rw [List.mem_singleton] at h
          subst h
          refine ⟨remapDeps m u, List.mem_append_right _ (by simp), ?_, rfl, rfl, rfl⟩
          rw [fact2]
          rfl

end StepGraph

namespace StepGraph

/-- The deduplication fold maintains the invariant along any suffix. -/
theorem dedup_inv :
    ∀ (l pre kept : List GStep) (m : List (Nat × Nat)),
      List.Pairwise (fun a b => a.id < b.id) (pre ++ l) →
      (∀ s ∈ pre ++ l, ∀ d ∈ s.deps, d < s.id) →
      Inv pre kept m →
      Inv (pre ++ l) ((l.foldl dedupStep (kept, m)).1)
        ((l.foldl dedupStep (kept, m)).2) := by
  intro l
  induction l with
  | nil =>
    intro pre kept m _ _ hI
    simpa using hI
  | cons s t ih =>
    intro pre kept m hpair hdeps hI
    have hup : ∀ u ∈ pre, u.id < s.id := by
      rw [List.pairwise_append] at hpair
      intro u hu
      exact hpair.2.2 u hu s (by simp)
    have hsdeps : ∀ d ∈ s.deps, d < s.id :=
      hdeps s (by simp)
    have hpredeps : ∀ u ∈ pre, ∀ d ∈ u.deps, d < u.id := by
      intro u hu
      exact hdeps u (List.mem_append_left _ hu)
    have hstep := inv_step pre kept m s hup hsdeps hpredeps hI
    have hrw : pre ++ s :: t = (pre ++ [s]) ++ t := by simp
    rw [List.foldl_cons, hrw]
    have := ih (pre ++ [s]) (dedupStep (kept, m) s).1 (dedupStep (kept, m) s).2
      (by rw [← hrw]; exact hpair)
      (by rw [← hrw]; exact hdeps)
      hstep
    simpa using this

/-- The invariant holds of the full deduplication run. -/
theorem dedup_full_inv (g : List GStep) (hwf : WFGraph g) :
    Inv g (dedup g) (dedupRemap g) := by
  have h0 : Inv [] [] [] := by
    refine ⟨List.Pairwise.nil, ?_, ?_, ?_, ?_⟩ <;> simp
  have := dedup_inv g [] [] [] (by simpa using hwf.1)
    (by
      intro s hs d hd
      exact (hwf.2 s (by simpa using hs) d hd).1)
    h0
  simpa using this

/-- Deduplication preserves single-row evaluation: the value of each
original step is the value of its surviving representative in the
deduplicated graph. -/
theorem dedup_eval (g : List GStep) (hwf : WFGraph g) {V : Type}
    (interp : String → String → List V → V) (undef : V) :
    ∀ s ∈ g,
      eval interp undef (dedup g) (applyRemap (dedupRemap g) s.id) =
        eval interp undef g s.id := by
  obtain ⟨hkpair, hkin, hment, hkdeps, hchar⟩ := dedup_full_inv g hwf
  have main : ∀ (n : Nat) (s : GStep), s ∈ g → s.id = n →
      eval interp undef (dedup g) (applyRemap (dedupRemap g) s.id) =
        eval interp undef g s.id := by
    intro n
    induction n using Nat.strong_induction_on with
    | _ n ih =>
      intro s hs hn
      obtain ⟨t, htk, htid, htctor, htkey, htdeps⟩ := hchar s hs
      have hfindK : (dedup g).find?
          (fun u => u.id == applyRemap (dedupRemap g) s.id) = some t := by
        rw [← htid]
        exact find?_id_of_mem_pairwise hkpair htk
      have hfindG : g.find? (fun u => u.id == s.id) = some s :=
        find?_id_of_mem_pairwise hwf.1 hs
      rw [eval_of_find _ _ _ _ _ hfindK, eval_of_find _ _ _ _ _ hfindG,
        htctor, htkey, htdeps, List.map_map]
      congr 1
      apply List.map_congr_left
      intro d hd
      have hdlt : d < s.id := (hwf.2 s hs d hd).1
      obtain ⟨u, hu, huid⟩ := (hwf.2 s hs d hd).2
      have hrmlt : applyRemap (dedupRemap g) d < applyRemap (dedupRemap g) s.id := by
        rw [← htid]
        apply hkdeps t htk
        rw [htdeps]
        exact List.mem_map_of_mem _ hd
      simp only [Function.comp]
      rw [dif_pos hrmlt, dif_pos hdlt]
      have hueq : eval interp undef (dedup g)
          (applyRemap (dedupRemap g) u.id) = eval interp undef g u.id :=
        ih d (by omega) u hu huid
      rw [huid] at hueq
      exact hueq
  intro s hs
  exact main s.id s hs rfl

end StepGraph

namespace StepGraph

/-- C6: deduplication is idempotent — running the pass twice produces the
same graph as running it once — and behavior-preserving: for every
well-formed step graph and every interpretation of the (non-side-effect
related) step operations, each original step's single-row value in the
deduplicated graph (read at its surviving representative) equals its
value in the original graph. -/
theorem dedup_idempotent_and_preserves (g : List GStep) (hwf : WFGraph g) :
    dedup (dedup g) = dedup g ∧
    ∀ (V : Type) (interp : String → String → List V → V) (undef : V),
      ∀ s ∈ g,
        eval interp undef (dedup g) (applyRemap (dedupRemap g) s.id) =
          eval interp undef g s.id :=
  ⟨dedup_idempotent g, fun _ interp undef => dedup_eval g hwf interp undef⟩

/-- A demonstration graph: two structurally identical `constant` steps
and an `add` step depending on both. -/
def demoDedupG : List GStep :=
  [{ id := 0, ctor := "constant", eqKey := "1", layerPlanId := 0,
     hasSideEffects := false, deps := [] },
   { id := 1, ctor := "constant", eqKey := "1", layerPlanId := 0,
     hasSideEffects := false, deps := [] },
   { id := 2, ctor := "add", eqKey := "", layerPlanId := 0,
     hasSideEffects := false, deps := [0, 1] }]

/-- A demonstration interpretation of step operations. -/
def demoInterp : String → String → List Nat → Nat :=
  fun _ _ vs => vs.foldl (fun a b => a + b) 1

/-- Witness for `dedup_idempotent_and_preserves` on `demoDedupG`. -/
theorem dedup_idempotent_and_preserves_witness :
    WFGraph demoDedupG ∧
    dedup (dedup demoDedupG) = dedup demoDedupG ∧
    eval demoInterp 0 (dedup demoDedupG)
        (applyRemap (dedupRemap demoDedupG) 2) =
      eval demoInterp 0 demoDedupG 2 := by
  have hwf : WFGraph demoDedupG := by decide
  have h := dedup_idempotent_and_preserves demoDedupG hwf
  have hmem : GStep.mk 2 "add" "" 0 false [0, 1] ∈ demoDedupG := by
    decide
  exact ⟨hwf, h.1, h.2 Nat demoInterp 0 _ hmem⟩

end StepGraph

namespace StepGraph

/-- Modelled from the spec: a topological execution order of a step
graph — a permutation of the step ids in which every dependency comes
strictly before its dependent ("execute ... in an order such that a step
never executes before all of its dependencies have produced values"). -/
def isTopoOrder (g : List GStep) (ord : List Nat) : Prop :=
  ord.Perm (g.map GStep.id) ∧
  ∀ s ∈ g, ∀ d ∈ s.deps, ord.indexOf d < ord.indexOf s.id

/-- Direct dependency between ids: `b`'s step lists `a` among its
dependencies. -/
def dependsOn (g : List GStep) (a b : Nat) : Prop :=
  ∃ s ∈ g, s.id = b ∧ a ∈ s.deps

/-- Transitive dependency; two steps are mutually independent exactly
when neither `DepPath g a b` nor `DepPath g b a` holds. -/
def DepPath (g : List GStep) : Nat → Nat → Prop :=
  Relation.TransGen (dependsOn g)

/-- In a strictly increasing list, `indexOf` is monotone. -/
theorem pairwise_lt_indexOf :
    ∀ (l : List Nat), List.Pairwise (fun a b => a < b) l →
      ∀ a b, a ∈ l → b ∈ l → a < b → l.indexOf a < l.indexOf b := by
  intro l
  induction l with
  | nil => intro _ a b ha; simp at ha
  | cons c t ih =>
    intro hp a b ha hb hab
    obtain ⟨hhead, htail⟩ := List.pairwise_cons.mp hp
    rcases List.mem_cons.mp ha with rfl | hat
    · have hbt : b ≠ a := Nat.ne_of_gt hab
      rcases List.mem_cons.mp hb with rfl | hbt2
      · omega
      · rw [List.indexOf_cons_self]
        have : (a == b) = false := by simp; omega
        rw [List.indexOf_cons]
        simp [this]
    · have hca : c < a := hhead a hat
      have hbne : b ≠ c := by
        rcases List.mem_cons.mp hb with rfl | _
        · omega
        · intro hbc
          subst hbc
          omega
      have hane : a ≠ c := by omega
      have hbt2 : b ∈ t := by
        rcases List.mem_cons.mp hb with rfl | h
        · omega
        · exact h
      have h1 : (c == a) = false := by simp; omega
      have h2 : (c == b) = false := by simp; omega
      rw [List.indexOf_cons, List.indexOf_cons]
      simp only [h1, h2, cond_false]
      have := ih htail a b hat hbt2 hab
      omega

/-- In a duplicate-free list, `indexOf` inverts `get?`. -/
theorem indexOf_get?_of_nodup :
    ∀ (l : List Nat), l.Nodup → ∀ (k x : Nat), l.get? k = some x →
      l.indexOf x = k := by
  intro l
  induction l with
  | nil => intro _ k x h; simp at h
  | cons c t ih =>
    intro hnd k x h
    cases k with
    | zero =>
      simp only [List.get?] at h
      injection h with h
      subst h
      exact List.indexOf_cons_self _ _
    | succ j =>
      simp only [List.get?] at h
      have hxt : x ∈ t := List.get?_mem h
      have hne : (c == x) = false := by
        have := (List.nodup_cons.mp hnd).1
        simp
        intro hcx
        subst hcx
        exact this hxt
      rw [List.indexOf_cons]
      simp only [hne, cond_false]
      rw [ih (List.nodup_cons.mp hnd).2 j x h]

/-- An element whose index is below `k` lies in the first `k` elements. -/
theorem mem_take_of_indexOf_lt :
    ∀ (l : List Nat) (k x : Nat), x ∈ l → l.indexOf x < k → x ∈ l.take k := by
  intro l
  induction l with
  | nil => intro k x h; simp at h
  | cons c t ih =>
    intro k x hx hidx
    cases k with
    | zero => simp at hidx
    | succ j =>
      rcases List.mem_cons.mp hx with rfl | hxt
      · simp
      · by_cases hcx : c = x
        · subst hcx; simp
        · have hne : (c == x) = false := by simp [hcx]
          rw [List.indexOf_cons] at hidx
          simp only [hne, cond_false] at hidx
          simp only [List.take_succ_cons, List.mem_cons]
          exact Or.inr (ih j x hxt (by omega))

/-- Any topological order places a transitively-depended-upon step
before its dependent. -/
theorem topo_before (g : List GStep) (ord : List Nat)
    (ht : isTopoOrder g ord) :
    ∀ a b, DepPath g a b → ord.indexOf a < ord.indexOf b := by
  intro a b h
  induction h with
  | single hab =>
    obtain ⟨s, hs, rfl, hd⟩ := hab
    exact ht.2 s hs a hd
  | tail _ hlast ih =>
    obtain ⟨s, hs, rfl, hd⟩ := hlast
    exact Nat.lt_trans ih (ht.2 s hs _ hd)

/-- C7: for every well-formed (acyclic by construction) step graph a
topological execution order exists (the id order); any two topological
orders agree on the relative order of every transitively dependent pair —
so they can differ only in the ordering of mutually independent steps —
and executing the steps of any topological order in sequence, each step's
dependency columns (the ids executed strictly before it) are fully
populated when the step's batched operation is invoked. -/
theorem topo_execution (g : List GStep) (hwf : WFGraph g) :
    (∃ ord, isTopoOrder g ord) ∧
    (∀ ord₁ ord₂, isTopoOrder g ord₁ → isTopoOrder g ord₂ →
      ∀ a b, DepPath g a b →
        ord₁.indexOf a < ord₁.indexOf b ∧
        ord₂.indexOf a < ord₂.indexOf b) ∧
    (∀ ord, isTopoOrder g ord → ∀ k x, ord.get? k = some x →
      ∀ s ∈ g, s.id = x → ∀ d ∈ s.deps, d ∈ ord.take k) := by
  have hidpair : List.Pairwise (fun a b => a < b) (g.map GStep.id) :=
    hwf.1.map GStep.id (fun _ _ h => h)
  have hidnodup : (g.map GStep.id).Nodup :=
    hidpair.imp (fun hab => Nat.ne_of_lt hab)
  refine ⟨?_, ?_, ?_⟩
  · refine ⟨g.map GStep.id, List.Perm.refl _, ?_⟩
    intro s hs d hd
    obtain ⟨hlt, u, hu, huid⟩ := hwf.2 s hs d hd
    have hdmem : d ∈ g.map GStep.id := by
      rw [List.mem_map]
      exact ⟨u, hu, huid⟩
    have hsmem : s.id ∈ g.map GStep.id := by
      rw [List.mem_map]
      exact ⟨s, hs, rfl⟩
    exact pairwise_lt_indexOf _ hidpair d s.id hdmem hsmem hlt
  · intro ord₁ ord₂ h₁ h₂ a b hpath
    exact ⟨topo_before g ord₁ h₁ a b hpath, topo_before g ord₂ h₂ a b hpath⟩
  · intro ord ht k x hk s hs hsid d hd
    have hnodup : ord.Nodup := (ht.1.nodup_iff).mpr hidnodup
    have hidx : ord.indexOf x = k := indexOf_get?_of_nodup ord hnodup k x hk
    have hdlt : ord.indexOf d < k := by
      rw [← hidx, ← hsid]
      exact ht.2 s hs d hd
    obtain ⟨_, u, hu, huid⟩ := hwf.2 s hs d hd
    have hdmem : d ∈ ord := by
      rw [ht.1.mem_iff, List.mem_map]
      exact ⟨u, hu, huid⟩
    exact mem_take_of_indexOf_lt ord k d hdmem hdlt

/-- A demonstration graph for the topological-order witness: a diamond of
dependencies. -/
def demoTopoG : List GStep :=
  [GStep.mk 0 "root" "" 0 false [],
   GStep.mk 1 "left" "" 0 false [0],
   GStep.mk 2 "right" "" 0 false [0],
   GStep.mk 3 "join" "" 0 false [1, 2]]

/-- Witness for `topo_execution` on `demoTopoG`. -/
theorem topo_execution_witness :
    WFGraph demoTopoG ∧ ∃ ord, isTopoOrder demoTopoG ord :=
  ⟨by decide, (topo_execution demoTopoG (by decide)).1⟩

end StepGraph
